import Mathlib

/-!
Verification of the mail-sense-ai classification core
(`app/services/llm_openai.py`, `app/services/preprocess.py`).

The Python source is shallowly embedded:
* Strings are Lean `String`s / `List Char`; the character classes of
  `re` (`\w`, `\s`, case folding) are modelled on the Basic Latin +
  Latin-1 repertoire, the repertoire exercised by this code base.
* The regular expressions appearing in the source are embedded as terms
  of a small syntax `RE` covering exactly the constructs used
  (literals, `\b`, `^`, `\s*`, `.{lo,hi}`, alternation), with Python's
  backtracking (leftmost, greedy, first-alternative-first) and
  non-overlapping `findall` semantics.
* Python floats are modelled as rationals; every confidence value the
  code produces is an exact multiple of 1/100, where float rounding and
  rational rounding agree.
* A value of the pydantic model `EmailAIResult` can only exist with a
  category of the two literal values and a validated confidence; this
  is modelled by the validating constructor `mkEmailAIResult`, and an
  uncaught pydantic `ValidationError` is modelled as `Except.error`.
-/

set_option maxHeartbeats 2000000
set_option maxRecDepth 4000

namespace MailSense

/-! ## Characters: Python `str`/`re` primitives (Basic Latin + Latin-1) -/

/-- Lower-casing on code points, as `str.lower` acts on the
Basic Latin and Latin-1 blocks (`A`–`Z` and `À`–`Þ` except `×`). -/
def lowNat (v : Nat) : Nat :=
  if 65 ≤ v ∧ v ≤ 90 then v + 32
  else if (192 ≤ v ∧ v ≤ 222) ∧ v ≠ 215 then v + 32
  else v

/-- `str.lower` on one character. -/
def pyLowerChar (c : Char) : Char :=
  if (65 ≤ c.toNat ∧ c.toNat ≤ 90) ∨ ((192 ≤ c.toNat ∧ c.toNat ≤ 222) ∧ c.toNat ≠ 215)
  then Char.ofNat (c.toNat + 32) else c

/-- Case-insensitive character comparison, as `re.IGNORECASE` compares
characters of this repertoire. -/
def charCI (a b : Char) : Bool := lowNat a.toNat == lowNat b.toNat

/-- Python's `\w` (with `re.UNICODE`) on the Basic Latin + Latin-1
repertoire: ASCII alphanumerics, `_`, `ª µ º`, and the Latin-1 letters
`À`–`ÿ` minus `×` and `÷`. -/
def isWordPy (c : Char) : Bool :=
  let v := c.toNat
  (48 ≤ v && v ≤ 57) || (65 ≤ v && v ≤ 90) || (97 ≤ v && v ≤ 122) || v == 95 ||
    v == 170 || v == 181 || v == 186 ||
    (192 ≤ v && v ≤ 255 && v != 215 && v != 247)

/-- Whitespace as recognised by `str.strip` and `\s` on this
repertoire: tab, LF, VT, FF, CR, space, NEL, NBSP. -/
def isPySpace (c : Char) : Bool :=
  let v := c.toNat
  (9 ≤ v && v ≤ 13) || v == 32 || v == 133 || v == 160

/-- `str.strip()` on a character list. -/
def pyStrip (cs : List Char) : List Char :=
  ((cs.dropWhile isPySpace).reverse.dropWhile isPySpace).reverse

/-- `str.strip()`. -/
def pyStripS (s : String) : String := String.mk (pyStrip s.data)

/-- `str.lower()`. -/
def pyLowerS (s : String) : String := String.mk (s.data.map pyLowerChar)

/-! ## A small regular-expression engine

Exactly the constructs used by the source's patterns, with Python
semantics: a match attempt at a position yields candidate end positions
in backtracking preference order (greedy repetitions longest-first,
alternatives left-first); `findall` scans left to right taking the
first successful end and continuing from it (non-overlapping). -/

inductive RE where
  | lit : List Char → RE
  | wordB : RE
  | bol : RE
  | dotRep : Nat → Nat → RE
  | spaceStar : RE
  | cat : RE → RE → RE
  | alt : RE → RE → RE
deriving DecidableEq, Repr

/-- Is the character at position `i` (if any) a `\w` character? -/
def isWordAt (t : List Char) (i : Nat) : Bool :=
  match t[i]? with
  | some c => isWordPy c
  | none => false

/-- `\b`: position `i` lies between a word character and a non-word
character (or edge). -/
def wordBoundaryAt (t : List Char) (i : Nat) : Bool :=
  (if i == 0 then false else isWordAt t (i - 1)) != isWordAt t i

/-- Match a literal (case-insensitively) at position `i`, returning the
end position on success. -/
def litMatchEnd (t : List Char) : Nat → List Char → Option Nat
  | i, [] => some i
  | i, p :: ps =>
    match t[i]? with
    | some c => if charCI p c then litMatchEnd t (i + 1) ps else none
    | none => none

/-- Length of the run of characters satisfying `p` starting at `i`. -/
def runLen (p : Char → Bool) (t : List Char) (i : Nat) : Nat :=
  ((t.drop i).takeWhile p).length

/-- All end positions of a match of `r` starting at position `i`, in
Python backtracking preference order. -/
def matchEnds (t : List Char) : RE → Nat → List Nat
  | .lit s, i =>
    match litMatchEnd t i s with
    | some e => [e]
    | none => []
  | .wordB, i => if wordBoundaryAt t i then [i] else []
  | .bol, i => if i == 0 then [i] else []
  | .dotRep lo hi, i =>
    let m := min (runLen (fun c => c ≠ '\n') t i) hi
    if lo ≤ m then (List.range (m + 1 - lo)).map (fun k => i + m - k) else []
  | .spaceStar, i =>
    let m := runLen isPySpace t i
    (List.range (m + 1)).map (fun k => i + m - k)
  | .cat r₁ r₂, i => (matchEnds t r₁ i).foldr (fun j acc => matchEnds t r₂ j ++ acc) []
  | .alt r₁ r₂, i => matchEnds t r₁ i ++ matchEnds t r₂ i

/-- One step of `findall`-style scanning, fuelled (the fuel
`t.length + 1` always suffices since the position strictly grows). -/
def faGo (t : List Char) (r : RE) : Nat → Nat → Nat
  | 0, _ => 0
  | fuel + 1, i =>
    if i ≤ t.length then
      match matchEnds t r i with
      | [] => faGo t r fuel (i + 1)
      | e :: _ => 1 + faGo t r fuel (max e (i + 1))
    else 0

/-- `len(pattern.findall(text))`: number of non-overlapping matches. -/
def findallCount (r : RE) (t : List Char) : Nat := faGo t r (t.length + 1) 0

/-- `pattern.search(text)` succeeds somewhere in the text. -/
def searchB (r : RE) (t : List Char) : Bool :=
  (List.range (t.length + 1)).any (fun i => !(matchEnds t r i).isEmpty)

/-- `\b` followed by a literal. -/
def reW (s : String) : RE := .cat .wordB (.lit s.data)

/-- A literal enclosed in `\b … \b`. -/
def reWW (s : String) : RE := .cat .wordB (.cat (.lit s.data) .wordB)

/-- `a|b|…`, preferring the leftmost alternative. -/
def altOf : List String → RE
  | [] => .lit []
  | [s] => .lit s.data
  | s :: rest => .alt (.lit s.data) (altOf rest)

/-! ## Data model (`EmailAIResult`, `Rule`) -/

/-- The two values of the pydantic `Literal["Produtivo", "Improdutivo"]`. -/
inductive Category where
  | Produtivo : Category
  | Improdutivo : Category
deriving DecidableEq, Repr

/-- The pydantic category validator: any other string (or non-string)
raises a `ValidationError`. -/
def parseCategory (s : String) : Option Category :=
  if s = "Produtivo" then some .Produtivo
  else if s = "Improdutivo" then some .Improdutivo
  else none

/-- `EmailAIResult` (pydantic `BaseModel`): by construction its
`category` is one of the two literal values. -/
structure EmailAIResult where
  category : Category
  confidence : ℚ
  short_reason : String
  user_message : String
  used_strategy : String
  matched_intents : List String
deriving DecidableEq, Repr

/-- Constructing an `EmailAIResult` through pydantic validation:
`category` must be one of the two literals (`none` models a failed
parse / non-literal value), `user_message` must be a string (`none`
models Python `None`), `confidence` must lie in `[0, 1]`
(`Field(..., ge=0.0, le=1.0)`).  `none` means `ValidationError`. -/
def mkEmailAIResult (cat? : Option Category) (confidence : ℚ)
    (reason : String) (user_message? : Option String)
    (used_strategy : String) (matched_intents : List String) :
    Option EmailAIResult :=
  match cat?, user_message? with
  | some c, some m =>
    if 0 ≤ confidence ∧ confidence ≤ 1 then
      some ⟨c, confidence, reason, m, used_strategy, matched_intents⟩
    else none
  | _, _ => none

/-- A pattern string of a `Rule`, classified by whether `re.compile`
accepts it: `ok r` is a pattern string compiling to the regex `r`,
`bad` is one on which `re.compile` raises `re.error`. -/
inductive Pattern where
  | ok : RE → Pattern
  | bad : Pattern
deriving DecidableEq, Repr

/-- `re.compile` on a pattern string. -/
def compilePat : Pattern → Option RE
  | .ok r => some r
  | .bad => none

/-- The `Rule` dataclass.  (`meta` is never read by the source and is
omitted; `priority` and `min_hits` are Python `int`s.) -/
structure Rule where
  name : String
  patterns : List Pattern
  priority : Int
  intent : String
  category_override : Option String := none
  min_hits : Int := 1
deriving DecidableEq, Repr

/-! ## RuleEngine -/

/-- `sorted(rules, key=lambda r: r.priority, reverse=True)`:
stable sort by descending priority. -/
def ruleSortLE (a b : Rule) : Bool := decide (b.priority ≤ a.priority)

def sortRules (rules : List Rule) : List Rule := rules.mergeSort ruleSortLE

def compilePats : List Pattern → Option (List RE)
  | [] => some []
  | p :: ps =>
    match compilePat p, compilePats ps with
    | some r, some rs => some (r :: rs)
    | _, _ => none

/-- Compile one rule's patterns (the list comprehension in
`RuleEngine.__init__`); `none` if some pattern raises `re.error`. -/
def compileRule (r : Rule) : Option (Rule × List RE) :=
  (compilePats r.patterns).map (fun ps => (r, ps))

def compileAll : List Rule → Option (List (Rule × List RE))
  | [] => some []
  | r :: rs =>
    match compileRule r, compileAll rs with
    | some p, some ps => some (p :: ps)
    | _, _ => none

/-- The observable state of a `RuleEngine` object: its `rules` and
`_compiled` attributes. -/
structure EngineState where
  rules : List Rule
  compiled : List (Rule × List RE)
deriving DecidableEq, Repr

/-- `RuleEngine.__init__` run on an object whose `_compiled` attribute
currently holds `oldCompiled`: `self.rules` is assigned the sorted list
first; then the compilation comprehension is evaluated and assigned —
if a pattern fails to compile, `re.error` is raised *after* the
`self.rules` assignment, so `_compiled` keeps its previous value.
The boolean records whether the exception was raised. -/
def RuleEngine_init (oldCompiled : List (Rule × List RE))
    (rules : List Rule) : EngineState × Bool :=
  let sorted := sortRules rules
  match compileAll sorted with
  | some comp => (⟨sorted, comp⟩, false)
  | none => (⟨sorted, oldCompiled⟩, true)

/-- Constructing a fresh `RuleEngine(rules)`: `none` when a pattern
fails to compile (the constructor raises and no engine exists). -/
def mkRuleEngine (rules : List Rule) : Option EngineState :=
  (compileAll (sortRules rules)).map (fun comp => ⟨sortRules rules, comp⟩)

/-- `add_rule`: appends to the live `rules` list, then re-runs
`__init__` on the same object. -/
def add_rule (st : EngineState) (rule : Rule) : EngineState × Bool :=
  RuleEngine_init st.compiled (st.rules ++ [rule])

/-- `RuleEngine.analyze`: every compiled rule whose summed `findall`
count over all its patterns reaches `min_hits`, with its hit count, in
the engine's (priority-sorted) order. -/
def RuleEngine_analyze (st : EngineState) (text : String) :
    List (Rule × Nat) :=
  st.compiled.filterMap (fun rp =>
    let hits : Nat := (rp.2.map (fun p => findallCount p text.data)).sum
    if rp.1.min_hits ≤ (hits : Int) then some (rp.1, hits) else none)

/-! ## Templates -/

/-- Association lists model Python dicts (unique keys; insertion order;
`dictSet` replaces in place or appends). -/
def dictGet {α : Type} (m : List (String × α)) (k : String) : Option α :=
  (m.find? (fun kv => kv.1 == k)).map (fun kv => kv.2)

def dictGetD {α : Type} (m : List (String × α)) (k : String) (d : α) : α :=
  (dictGet m k).getD d

def dictSet {α : Type} : List (String × α) → String → α → List (String × α)
  | [], k, v => [(k, v)]
  | kv :: rest, k, v =>
    if kv.1 == k then (k, v) :: rest else kv :: dictSet rest k v

abbrev ToneMap := List (String × String)
abbrev Templates := List (String × ToneMap)

/-- The module-level `TEMPLATES` mapping. -/
def TEMPLATES_def : Templates :=
  [ ("support",
      [ ("friendly", "Olá! Obrigado por avisar — já abrimos um chamado para o time de suporte. Você pode nos enviar mais detalhes (prints ou passos para reproduzir)?"),
        ("formal", "Prezado(a), agradecemos o contato. Abriremos um chamado com o setor de suporte. Favor informar passos para reprodução e anexos relevantes."),
        ("concise", "Chamado de suporte criado. Envie mais detalhes, por favor.") ]),
    ("billing",
      [ ("friendly", "Oi! Vi que é sobre cobrança — vou encaminhar para financeiro e voltamos com um retorno em breve. Pode enviar o comprovante se tiver?"),
        ("formal", "Recebemos sua solicitação referente à cobrança. Encaminharemos ao departamento financeiro. Solicitamos o envio de comprovantes quando aplicável."),
        ("concise", "Encaminhado ao financeiro. Envie comprovante, se houver.") ]),
    ("meeting",
      [ ("friendly", "Ótimo — parece que você quer agendar/confirmar uma reunião. Quais são suas disponibilidades?"),
        ("formal", "Entendemos que deseja agendar uma reunião. Por favor, informe datas e horários de preferência."),
        ("concise", "Precisa agendar reunião? Informe disponibilidade.") ]),
    ("marketing",
      [ ("friendly", "Obrigado pelo envio — registramos como material informativo/marketing. Nada de ação imediata necessária."),
        ("formal", "Registramos o conteúdo como informativo/marketing. Sem ação requerida no momento."),
        ("concise", "Material informativo recebido.") ]),
    ("attachment",
      [ ("friendly", "Notamos que você mencionou um anexo. Não chegamos a receber — poderia reenviar o arquivo?"),
        ("formal", "Foi mencionada a presença de anexo, porém não encontramos o mesmo. Solicitamos o reenvio do arquivo."),
        ("concise", "Anexo não encontrado. Reenvie, por favor.") ]),
    ("general",
      [ ("friendly", "Obrigado pela mensagem! Vamos analisar e retornar assim que possível."),
        ("formal", "Agradecemos o contato. Analisaremos e daremos retorno em breve."),
        ("concise", "Mensagem recebida. Retornaremos em breve.") ]) ]

/-- `add_template`: `if intent not in TEMPLATES: TEMPLATES[intent] = {}`
then `TEMPLATES[intent][tone] = template_text`. -/
def add_template (tm : Templates) (intent tone template_text : String) :
    Templates :=
  let tm' := if (dictGet tm intent).isNone then dictSet tm intent [] else tm
  dictSet tm' intent (dictSet (dictGetD tm' intent []) tone template_text)

def lbrace : Char := Char.ofNat 123
def rbrace : Char := Char.ofNat 125

/-- `template.format(**extras)` for templates whose replacement fields
are plain names (the only shape this code base uses): `none` models the
exception raised on a missing key or a malformed field.  Fuelled; the
fuel `length + 1` always suffices. -/
def pyFormatGo (extras : List (String × String)) :
    Nat → List Char → Option (List Char)
  | 0, _ => none
  | _ + 1, [] => some []
  | f + 1, c :: cs =>
    if c = lbrace then
      match cs with
      | [] => none
      | d :: cs₂ =>
        if d = lbrace then (pyFormatGo extras f cs₂).map (fun r => lbrace :: r)
        else
          let key := cs.takeWhile (fun x => x ≠ rbrace)
          match cs.dropWhile (fun x => x ≠ rbrace) with
          | _ :: cs₃ =>
            match dictGet extras (String.mk key) with
            | some v => (pyFormatGo extras f cs₃).map (fun r => v.data ++ r)
            | none => none
          | [] => none
    else if c = rbrace then
      match cs with
      | d :: cs₂ =>
        if d = rbrace then (pyFormatGo extras f cs₂).map (fun r => rbrace :: r)
        else none
      | [] => none
    else (pyFormatGo extras f cs).map (fun r => c :: r)

def pyFormat (extras : List (String × String)) (s : List Char) :
    Option (List Char) :=
  pyFormatGo extras (s.length + 1) s

/-- `render_template(intent, tone, extras)`.  Mirrors the source line
by line, including Python truthiness: an intent mapped to an *empty*
dict, or a tone mapped to an *empty* string, also falls through the
`or`.  The result is `Option` because `templates_for_intent.get(tone)
or templates_for_intent.get("friendly")` may be `None`, which the
function then returns (the `try` around `.format` catches the
`AttributeError`).  `TEMPLATES["general"]` is modelled as a defaulted
lookup; on every state reachable from the default mapping the key
`"general"` is present, where this agrees with the source.

`TEMPLATES.get(intent) or TEMPLATES["general"]` (an intent mapped
to an empty dict is falsy and also falls through the `or`). -/
def chosenMap (tm : Templates) (intent : String) : ToneMap :=
  match dictGet tm intent with
  | some m => if m.isEmpty then dictGetD tm "general" [] else m
  | none => dictGetD tm "general" []

/-- `templates_for_intent.get(tone) or templates_for_intent.get("friendly")`
(a tone mapped to the empty string is falsy and falls through the `or`;
the whole expression may be `None`). -/
def chosenTemplate (tm : Templates) (intent tone : String) : Option String :=
  match dictGet (chosenMap tm intent) tone with
  | some s => if s = "" then dictGet (chosenMap tm intent) "friendly" else some s
  | none => dictGet (chosenMap tm intent) "friendly"

def render_template (tm : Templates) (intent tone : String)
    (extras : List (String × String)) : Option String :=
  match chosenTemplate tm intent tone with
  | none => none
  | some t =>
    some (match pyFormat extras t.data with
          | some r => String.mk r
          | none => t)

/-! ## Tone, heuristics, confidence -/

def formalRe : RE :=
  .cat .wordB (.cat (altOf ["prezado", "senhor", "senhora", "atenciosamente", "cordialmente"]) .wordB)

def greetRe : RE :=
  .cat .bol (.cat .spaceStar (.cat (altOf ["bom dia", "boa tarde", "boa noite"]) .wordB))

/-- `detect_tone`. -/
def detect_tone (text : String) : String :=
  let t := pyStripS text
  let lower := pyLowerS t
  if searchB formalRe lower.data then "formal"
  else if searchB greetRe lower.data then "friendly"
  else if t.length < 80 then "concise"
  else "friendly"

/-- `round(q, 2)`.  Python rounds floats half-to-even, but every value
this code rounds is an exact multiple of 1/100 (`q * 100` is an
integer), where every rounding mode is the identity. -/
def roundTo2 (q : ℚ) : ℚ := ((⌊q * 100 + 1 / 2⌋ : ℤ) : ℚ) / 100

/-- `simple_confidence_from_hits`. -/
def simple_confidence_from_hits (hits : Nat) (max_hits : Nat) : ℚ :=
  let ratio : ℚ := ((min hits max_hits : Nat) : ℚ) / (max_hits : ℚ)
  roundTo2 (1 / 2 + ratio * (45 / 100))

/-- The request-language heuristic pattern of step 3 of
`analyse_with_openai`. -/
def requestRe : RE :=
  .cat .wordB (.cat (altOf ["preciso", "gostaria", "poderia", "solicito", "favor", "por favor", "pode me"]) .wordB)

/-- Python `x or y` on an optional string (`None` and `""` are falsy). -/
def pyOrStr (x : Option String) (y : String) : String :=
  match x with
  | some s => if s = "" then y else s
  | none => y

/-! ## Remote classifier adapter -/

/-- The JSON-like payload extracted from a remote response.  A missing
key is `none`; a value that is not a string / not a number behaves
exactly like a failed validation and is subsumed by the surrounding
outcomes. -/
structure RemotePayload where
  category : Option String
  confidence : Option ℚ
  short_reason : Option String
  suggested_reply : Option String
deriving DecidableEq, Repr

/-- Everything `_try_openai_classify` can observe from the outside
world: `unavailable` covers a missing credential, an un-importable or
un-constructible client, any exception during the call, a response
with no JSON object, or an unparsable number; `payload` is a parsed
JSON object. -/
inductive RemoteOutcome where
  | unavailable : RemoteOutcome
  | payload : RemotePayload → RemoteOutcome
deriving DecidableEq, Repr

/-- `_try_openai_classify`: builds an `EmailAIResult` from the payload
with pydantic validation; *any* failure (including validation) is
caught and becomes `None`. -/
def tryOpenaiClassify : RemoteOutcome → Option EmailAIResult
  | .unavailable => none
  | .payload p =>
    mkEmailAIResult (parseCategory (p.category.getD "Improdutivo"))
      (p.confidence.getD (1 / 2)) (p.short_reason.getD "")
      (some (p.suggested_reply.getD "")) "openai" []

/-! ## Default rules and engine -/

def urgent_support_rule : Rule :=
  { name := "urgent_support"
    patterns := [.ok (reW "urgent"), .ok (reWW "urgente"), .ok (reW "imediato"),
                 .ok (reWW "crítico"), .ok (.lit "erro grave".data)]
    priority := 100, intent := "support", category_override := some "Produtivo" }

def support_generic_rule : Rule :=
  { name := "support_generic"
    patterns := [.ok (reW "suport"), .ok (reWW "suporte"), .ok (reWW "ajuda"),
                 .ok (reWW "problema"), .ok (reWW "bug"), .ok (reWW "erro")]
    priority := 90, intent := "support", category_override := some "Produtivo" }

def billing_words_rule : Rule :=
  { name := "billing_words"
    patterns := [.ok (reWW "fatura"), .ok (reWW "pagamento"), .ok (reWW "boleto"),
                 .ok (reWW "reembolso"), .ok (reWW "nota fiscal"), .ok (reWW "chargeback")]
    priority := 80, intent := "billing", category_override := some "Produtivo" }

def meeting_words_rule : Rule :=
  { name := "meeting_words"
    patterns := [.ok (.cat .wordB (.cat (.lit "reuni".data) (.cat (.dotRep 1 3) .wordB))),
                 .ok (reWW "agendar"), .ok (reWW "agendamento"), .ok (reW "disponibilid")]
    priority := 70, intent := "meeting", category_override := some "Produtivo" }

def attachment_words_rule : Rule :=
  { name := "attachment_words"
    patterns := [.ok (reWW "anexo"), .ok (reWW "anexado"), .ok (reWW "anexos"),
                 .ok (reWW "segue anexo"), .ok (reWW "arquivo em anexo")]
    priority := 60, intent := "attachment", category_override := none }

def marketing_words_rule : Rule :=
  { name := "marketing_words"
    patterns := [.ok (reWW "newsletter"), .ok (reW "promoç"), .ok (reWW "oferta"),
                 .ok (reWW "divulgação"), .ok (reWW "evento")]
    priority := 30, intent := "marketing", category_override := some "Improdutivo" }

def DEFAULT_RULES : List Rule :=
  [urgent_support_rule, support_generic_rule, billing_words_rule,
   meeting_words_rule, attachment_words_rule, marketing_words_rule]

/-- The module-level `_RULE_ENGINE = RuleEngine(DEFAULT_RULES)`. -/
def defaultEngine : EngineState := (RuleEngine_init [] DEFAULT_RULES).1

/-! ## The orchestrator `analyse_with_openai`

An uncaught exception (a pydantic `ValidationError` escaping one of
the `EmailAIResult(...)` constructions) is `Except.error ()`. -/

def mkShortReason (name : String) (hits : Nat) : String :=
  "Regra " ++ String.singleton (Char.ofNat 39) ++ name ++
    String.singleton (Char.ofNat 39) ++ " acionada (hits=" ++ toString hits ++ ")."

/-- The `intent_hits_map` dict built by `analyse_with_openai`. -/
def intentHitsMap (rule_hits : List (Rule × Nat)) : List (String × Nat) :=
  rule_hits.foldl (fun m rh => dictSet m rh.1.intent (dictGetD m rh.1.intent 0 + rh.2)) []

/-- Steps 2–4 of `analyse_with_openai` (everything after the remote
attempt), with `openai_fallback` as left by step 1. -/
def analyseLocal (st : EngineState) (tm : Templates)
    (openai_fallback : Option EmailAIResult) (text : String) :
    Except Unit EmailAIResult :=
  let rule_hits := RuleEngine_analyze st text
  let matched_intents := rule_hits.map (fun rh => rh.1.intent)
  let intent_hits_map : List (String × Nat) := intentHitsMap rule_hits
  match rule_hits with
  | (best_rule, best_hits) :: _ =>
    let intent := best_rule.intent
    let hits := dictGetD intent_hits_map intent best_hits
    let confidence := simple_confidence_from_hits hits 5
    let category :=
      pyOrStr best_rule.category_override
        (if (6 : ℚ) / 10 ≤ confidence then "Produtivo" else "Improdutivo")
    let tone := detect_tone text
    let message := render_template tm intent tone []
    match mkEmailAIResult (parseCategory category) confidence
        (mkShortReason best_rule.name hits) message "rules" matched_intents with
    | some r => .ok r
    | none => .error ()
  | [] =>
    if searchB requestRe text.data then
      match mkEmailAIResult (some .Produtivo) (6 / 10)
          "Heurística simples detectou linguagem de solicitação."
          (render_template tm "general" (detect_tone text) []) "heuristic" [] with
      | some r => .ok r
      | none => .error ()
    else
      match openai_fallback with
      | some fb =>
        let msg? := if fb.user_message = "" then
            render_template tm "general" (detect_tone text) []
          else some fb.user_message
        match mkEmailAIResult (some fb.category) fb.confidence
            "Resposta do LLM com baixa confiança; usada como fallback."
            msg? "openai-fallback" [] with
        | some r => .ok r
        | none => .error ()
      | none =>
        match mkEmailAIResult (some .Improdutivo) (55 / 100)
            "Nenhuma regra ou padrão de solicitação detectado."
            (render_template tm "general" (detect_tone text) []) "fallback" [] with
        | some r => .ok r
        | none => .error ()

/-- `analyse_with_openai(email_text)`, parameterised by the live
engine/template state and by the remote outcome. -/
def analyse_with_openai (st : EngineState) (tm : Templates)
    (remote : RemoteOutcome) (email_text : String) :
    Except Unit EmailAIResult :=
  let text := pyStripS email_text
  if text = "" then
    match mkEmailAIResult (some .Improdutivo) 0 "Texto vazio"
        (some "Nenhum conteúdo encontrado no email.") "none" [] with
    | some r => .ok r
    | none => .error ()
  else
    match tryOpenaiClassify remote with
    | some ai =>
      if (65 : ℚ) / 100 ≤ ai.confidence then .ok { ai with used_strategy := "openai" }
      else analyseLocal st tm (some ai) text
    | none => analyseLocal st tm none text

/-! ## `preprocess.py` -/

/-- Replace every maximal run of characters satisfying `p` by the
single character `rep` (`re.sub` with a `p`-run pattern).  The flag
records whether we are inside a run. -/
def subRunsGo (p : Char → Bool) (rep : Char) : Bool → List Char → List Char
  | _, [] => []
  | true, c :: cs =>
    if p c then subRunsGo p rep true cs
    else c :: subRunsGo p rep false cs
  | false, c :: cs =>
    if p c then rep :: subRunsGo p rep true cs
    else c :: subRunsGo p rep false cs

def subRuns (p : Char → Bool) (rep : Char) (cs : List Char) : List Char :=
  subRunsGo p rep false cs

/-- The character class kept by `_non_word_re = [^\wÀ-ÿ]+`: word
characters plus the literal range `À`–`ÿ` (which, as a range, also
admits `×` and `÷`). -/
def keepCharPre (c : Char) : Bool :=
  isWordPy c || (192 ≤ c.toNat && c.toNat ≤ 255)

/-- `preprocess_pt`. -/
def preprocess_pt (text : String) : String :=
  if text = "" then ""
  else
    let s := text.data.map pyLowerChar
    let s := pyStrip (subRuns isPySpace ' ' s)
    let s := subRuns (fun c => !keepCharPre c) ' ' s
    String.mk (pyStrip (subRuns isPySpace ' ' s))

/-- `preprocess_pt` on an optional input (`if not text:` treats `None`
like the empty string). -/
def preprocess_pt_opt : Option String → String
  | none => ""
  | some s => preprocess_pt s

/-- NFKD decomposition of one character, on the Latin-1 letters this
code base works with (other characters, whose decompositions the
repository never exercises, are left as themselves). -/
def nfkdChar (c : Char) : List Char :=
  let v := c.toNat
  let mk2 (b : Nat) (m : Nat) : List Char := [Char.ofNat b, Char.ofNat m]
  if v == 192 then mk2 65 768 else if v == 193 then mk2 65 769
  else if v == 194 then mk2 65 770 else if v == 195 then mk2 65 771
  else if v == 196 then mk2 65 776 else if v == 197 then mk2 65 778
  else if v == 199 then mk2 67 807
  else if v == 200 then mk2 69 768 else if v == 201 then mk2 69 769
  else if v == 202 then mk2 69 770 else if v == 203 then mk2 69 776
  else if v == 204 then mk2 73 768 else if v == 205 then mk2 73 769
  else if v == 206 then mk2 73 770 else if v == 207 then mk2 73 776
  else if v == 209 then mk2 78 771
  else if v == 210 then mk2 79 768 else if v == 211 then mk2 79 769
  else if v == 212 then mk2 79 770 else if v == 213 then mk2 79 771
  else if v == 214 then mk2 79 776
  else if v == 217 then mk2 85 768 else if v == 218 then mk2 85 769
  else if v == 219 then mk2 85 770 else if v == 220 then mk2 85 776
  else if v == 221 then mk2 89 769
  else if v == 224 then mk2 97 768 else if v == 225 then mk2 97 769
  else if v == 226 then mk2 97 770 else if v == 227 then mk2 97 771
  else if v == 228 then mk2 97 776 else if v == 229 then mk2 97 778
  else if v == 231 then mk2 99 807
  else if v == 232 then mk2 101 768 else if v == 233 then mk2 101 769
  else if v == 234 then mk2 101 770 else if v == 235 then mk2 101 776
  else if v == 236 then mk2 105 768 else if v == 237 then mk2 105 769
  else if v == 238 then mk2 105 770 else if v == 239 then mk2 105 776
  else if v == 241 then mk2 110 771
  else if v == 242 then mk2 111 768 else if v == 243 then mk2 111 769
  else if v == 244 then mk2 111 770 else if v == 245 then mk2 111 771
  else if v == 246 then mk2 111 776
  else if v == 249 then mk2 117 768 else if v == 250 then mk2 117 769
  else if v == 251 then mk2 117 770 else if v == 252 then mk2 117 776
  else if v == 253 then mk2 121 769 else if v == 255 then mk2 121 776
  else [c]

/-- A combining mark (the combining diacritical marks block). -/
def isCombining (c : Char) : Bool := 768 ≤ c.toNat && c.toNat ≤ 879

/-- `_strip_accents`: NFKD-normalise, drop combining marks.  Defined by
the source but never called by `preprocess_pt`. -/
def strip_accents (text : String) : String :=
  String.mk ((text.data.map nfkdChar).flatten.filter (fun c => !isCombining c))

/-! ## Infrastructure lemmas -/

instance {e a : Type} [DecidableEq e] [DecidableEq a] :
    DecidableEq (Except e a) := fun x y =>
  match x, y with
  | .ok v, .ok w =>
    match decEq v w with
    | isTrue h => isTrue (h ▸ rfl)
    | isFalse h => isFalse (fun he => h (Except.ok.inj he))
  | .error v, .error w =>
    match decEq v w with
    | isTrue h => isTrue (h ▸ rfl)
    | isFalse h => isFalse (fun he => h (Except.error.inj he))
  | .ok _, .error _ => isFalse (fun he => Except.noConfusion he)
  | .error _, .ok _ => isFalse (fun he => Except.noConfusion he)

/-- `DEFAULT_RULES` is already in descending priority order, so the
engine state built at module load is just `DEFAULT_RULES` with its
compiled patterns.  (This lets concrete runs evaluate by `decide`,
since `mergeSort` itself is defined by well-founded recursion.) -/
theorem defaultEngine_eq :
    defaultEngine = ⟨DEFAULT_RULES, (compileAll DEFAULT_RULES).getD []⟩ := by
  have hs : DEFAULT_RULES.mergeSort ruleSortLE = DEFAULT_RULES :=
    List.mergeSort_of_sorted (by decide)
  unfold defaultEngine RuleEngine_init sortRules
  rw [hs]
  decide

theorem mkEmailAIResult_eq_some {cat? : Option Category} {conf : ℚ}
    {reason : String} {um? : Option String} {us : String}
    {mi : List String} {r : EmailAIResult} :
    mkEmailAIResult cat? conf reason um? us mi = some r ↔
      ∃ c m, cat? = some c ∧ um? = some m ∧ 0 ≤ conf ∧ conf ≤ 1 ∧
        r = ⟨c, conf, reason, m, us, mi⟩ := by
  cases cat? with
  | none => simp [mkEmailAIResult]
  | some c =>
    cases um? with
    | none => simp [mkEmailAIResult]
    | some m =>
      have he : mkEmailAIResult (some c) conf reason (some m) us mi
          = if 0 ≤ conf ∧ conf ≤ 1 then some ⟨c, conf, reason, m, us, mi⟩ else none := rfl
      rw [he]
      by_cases hb : 0 ≤ conf ∧ conf ≤ 1
      · rw [if_pos hb]
        constructor
        · intro h
          exact ⟨c, m, rfl, rfl, hb.1, hb.2, (Option.some.inj h).symm⟩
        · rintro ⟨c', m', hc, hm, h0, h1, hr⟩
          obtain rfl := Option.some.inj hc
          obtain rfl := Option.some.inj hm
          subst hr
          rfl
      · rw [if_neg hb]
        constructor
        · intro h
          cases h
        · rintro ⟨c', m', hc, hm, h0, h1, hr⟩
          exact absurd ⟨h0, h1⟩ hb

theorem tryOpenaiClassify_bounds {ro : RemoteOutcome} {r : EmailAIResult}
    (h : tryOpenaiClassify ro = some r) :
    0 ≤ r.confidence ∧ r.confidence ≤ 1 ∧ r.used_strategy = "openai" := by
  cases ro with
  | unavailable => exact absurd h (by simp [tryOpenaiClassify])
  | payload p =>
    unfold tryOpenaiClassify at h
    obtain ⟨c, m, _, _, h0, h1, hr⟩ := mkEmailAIResult_eq_some.mp h
    subst hr
    exact ⟨h0, h1, rfl⟩

/-- `category_override` values that pydantic will accept after the
`or`-defaulting (the empty string is falsy and falls back). -/
def overrideOKo (o : Option String) : Bool :=
  match o with
  | none => true
  | some s => s == "" || s == "Produtivo" || s == "Improdutivo"

def overrideOKB (r : Rule) : Bool := overrideOKo r.category_override

theorem parseCategory_pyOrStr {o : Option String} (hov : overrideOKo o = true)
    (d : String) (hd : parseCategory d ≠ none) :
    parseCategory (pyOrStr o d) ≠ none := by
  cases o with
  | none => simpa [pyOrStr] using hd
  | some s =>
    simp only [overrideOKo, Bool.or_eq_true, beq_iff_eq] at hov
    rcases hov with (h | h) | h
    · simpa [pyOrStr, h] using hd
    · subst h; simp [pyOrStr, parseCategory]
    · subst h; simp [pyOrStr, parseCategory]

theorem parseCategory_ite (c : Prop) [Decidable c] :
    parseCategory (if c then "Produtivo" else "Improdutivo") ≠ none := by
  split <;> simp [parseCategory]

/-- The chosen tone map of `intent` has a `"friendly"` entry. -/
def hasFriendlyB (tm : Templates) (intent : String) : Bool :=
  (dictGet (chosenMap tm intent) "friendly").isSome

theorem render_template_isSome {tm : Templates} {intent : String}
    (h : hasFriendlyB tm intent = true) (tone : String)
    (extras : List (String × String)) :
    ∃ s, render_template tm intent tone extras = some s := by
  unfold hasFriendlyB at h
  rw [Option.isSome_iff_exists] at h
  obtain ⟨f, hf⟩ := h
  have ht : ∃ t, chosenTemplate tm intent tone = some t := by
    unfold chosenTemplate
    cases hx : dictGet (chosenMap tm intent) tone with
    | none => exact ⟨f, hf⟩
    | some s =>
      by_cases hs : s = ""
      · exact ⟨f, by simp [hs, hf]⟩
      · exact ⟨s, by simp [hs]⟩
  obtain ⟨t, ht⟩ := ht
  unfold render_template
  rw [ht]
  exact ⟨_, rfl⟩

theorem simple_confidence_eq (h : Nat) :
    simple_confidence_from_hits h 5 = ((50 + 9 * min h 5 : ℕ) : ℚ) / 100 := by
  unfold simple_confidence_from_hits roundTo2
  simp only []
  have h1 : ((1 : ℚ) / 2 + ((min h 5 : ℕ) : ℚ) / ((5 : ℕ) : ℚ) * (45 / 100)) * 100 + 1 / 2
      = ((50 + 9 * min h 5 : ℕ) : ℚ) + 1 / 2 := by
    push_cast; ring
  rw [h1, add_comm, Int.floor_add_nat]
  norm_num

theorem simple_confidence_bounds (h : Nat) :
    0 ≤ simple_confidence_from_hits h 5 ∧ simple_confidence_from_hits h 5 ≤ 1 := by
  rw [simple_confidence_eq]
  have hk : min h 5 ≤ 5 := Nat.min_le_right _ _
  constructor
  · positivity
  · rw [div_le_one (by norm_num)]
    have : (50 + 9 * min h 5 : ℕ) ≤ 95 := by omega
    exact_mod_cast le_trans (Nat.cast_le.mpr this) (by norm_num)

/-! ### Dictionary lemmas -/

theorem dictGet_mem {α : Type} {m : List (String × α)} {k : String} {v : α}
    (h : dictGet m k = some v) : (k, v) ∈ m := by
  unfold dictGet at h
  cases hf : m.find? (fun kv => kv.1 == k) with
  | none => rw [hf] at h; cases h
  | some kv =>
    rw [hf] at h
    have hm := List.mem_of_find?_eq_some hf
    have hp := List.find?_some hf
    have h1 : kv.1 = k := by simpa using hp
    have h2 : kv.2 = v := Option.some.inj h
    have : kv = (k, v) := by
      cases kv; simp_all
    rwa [this] at hm

theorem dictGet_dictSet_self {α : Type} (m : List (String × α)) (k : String) (v : α) :
    dictGet (dictSet m k v) k = some v := by
  induction m with
  | nil => simp [dictSet, dictGet]
  | cons kv rest ih =>
    unfold dictSet
    by_cases hb : (kv.1 == k) = true
    · rw [if_pos hb]
      unfold dictGet
      rw [List.find?_cons_of_pos _ (by simp)]
      rfl
    · rw [if_neg hb]
      unfold dictGet
      rw [List.find?_cons_of_neg _ (by simpa using hb)]
      exact ih

theorem dictGet_dictSet_ne {α : Type} (m : List (String × α)) (k k' : String) (v : α)
    (h : k ≠ k') : dictGet (dictSet m k v) k' = dictGet m k' := by
  induction m with
  | nil =>
    unfold dictSet dictGet
    rw [List.find?_cons_of_neg _ (by simpa using h)]
  | cons kv rest ih =>
    unfold dictSet
    by_cases hb : (kv.1 == k) = true
    · rw [if_pos hb]
      have hkk : kv.1 = k := by simpa using hb
      have h1 : ¬ ((fun x => x.1 == k') ((k, v) : String × α)) := by simpa using h
      have h2 : ¬ ((fun x => x.1 == k') kv) := by
        simp only [hkk]
        simpa using h
      unfold dictGet
      rw [@List.find?_cons_of_neg _ (fun x => x.1 == k') ((k, v)) rest h1,
        @List.find?_cons_of_neg _ (fun x => x.1 == k') kv rest h2]
    · rw [if_neg hb]
      unfold dictGet
      by_cases hq : ((fun x => x.1 == k') kv) = true
      · rw [@List.find?_cons_of_pos _ (fun x => x.1 == k') kv (dictSet rest k v) hq,
          @List.find?_cons_of_pos _ (fun x => x.1 == k') kv rest hq]
      · rw [@List.find?_cons_of_neg _ (fun x => x.1 == k') kv (dictSet rest k v) (by simpa using hq),
          @List.find?_cons_of_neg _ (fun x => x.1 == k') kv rest (by simpa using hq)]
        exact ih

/-! ### Template value lemmas -/

def braceFreeB (s : String) : Bool :=
  s.data.all (fun c => c ≠ lbrace && c ≠ rbrace)

/-- Every template value stored in the mapping is non-empty and free of
replacement fields. -/
def templatesGoodB (tm : Templates) : Bool :=
  tm.all (fun im => im.2.all (fun kt => !(kt.2 == "") && braceFreeB kt.2))

theorem pyFormatGo_braceFree (extras : List (String × String)) :
    ∀ (fuel : Nat) (cs : List Char), cs.length < fuel →
      (∀ c ∈ cs, c ≠ lbrace ∧ c ≠ rbrace) →
      pyFormatGo extras fuel cs = some cs := by
  intro fuel
  induction fuel with
  | zero => intro cs h; omega
  | succ f ih =>
    intro cs hlen hbf
    cases cs with
    | nil => rfl
    | cons c rest =>
      have hc := hbf c (List.mem_cons_self c rest)
      unfold pyFormatGo
      rw [if_neg hc.1, if_neg hc.2]
      rw [ih rest (by simpa using Nat.lt_of_succ_lt_succ hlen)
            (fun x hx => hbf x (List.mem_cons_of_mem c hx))]
      rfl

theorem pyFormat_braceFree {s : String} (extras : List (String × String))
    (h : braceFreeB s = true) : pyFormat extras s.data = some s.data := by
  unfold pyFormat
  apply pyFormatGo_braceFree
  · omega
  · intro c hc
    have := List.all_eq_true.mp h c hc
    simpa using this

/-- The map chosen for an intent is empty or one of the stored maps. -/
theorem chosenMap_cases (tm : Templates) (intent : String) :
    chosenMap tm intent = [] ∨ ∃ k, (k, chosenMap tm intent) ∈ tm := by
  unfold chosenMap
  cases hi : dictGet tm intent with
  | some m =>
    dsimp only
    by_cases hm : m.isEmpty
    · rw [if_pos hm]
      cases hg : dictGet tm "general" with
      | some g =>
        right
        refine ⟨"general", ?_⟩
        have he : dictGetD tm "general" [] = g := by simp [dictGetD, hg]
        rw [he]
        exact dictGet_mem hg
      | none => left; simp [dictGetD, hg]
    · rw [if_neg hm]
      right; exact ⟨intent, dictGet_mem hi⟩
  | none =>
    dsimp only
    cases hg : dictGet tm "general" with
    | some g =>
      right
      refine ⟨"general", ?_⟩
      have he : dictGetD tm "general" [] = g := by simp [dictGetD, hg]
      rw [he]
      exact dictGet_mem hg
    | none => left; simp [dictGetD, hg]

theorem chosenTemplate_some {tm : Templates} {intent tone t : String}
    (h : chosenTemplate tm intent tone = some t) :
    ∃ k, dictGet (chosenMap tm intent) k = some t := by
  unfold chosenTemplate at h
  cases hx : dictGet (chosenMap tm intent) tone with
  | none =>
    simp only [hx] at h
    exact ⟨"friendly", h⟩
  | some s =>
    simp only [hx] at h
    by_cases hs : s = ""
    · rw [if_pos hs] at h
      exact ⟨"friendly", h⟩
    · rw [if_neg hs] at h
      exact ⟨tone, hx ▸ h⟩

/-- With a well-formed template table, anything `render_template`
returns is one of the stored (non-empty) template strings. -/
theorem render_some_ne_empty {tm : Templates} {intent tone s : String}
    {extras : List (String × String)}
    (hgood : templatesGoodB tm = true)
    (h : render_template tm intent tone extras = some s)
    (hextras : extras = []) : s ≠ "" := by
  subst hextras
  unfold render_template at h
  cases hct : chosenTemplate tm intent tone with
  | none =>
    simp only [hct] at h
    exact Option.noConfusion h
  | some t =>
    simp only [hct] at h
    obtain ⟨k, hk⟩ := chosenTemplate_some hct
    rcases chosenMap_cases tm intent with hemp | ⟨k', hmem⟩
    · rw [hemp] at hk; cases hk
    · have hkv := dictGet_mem hk
      have h1 := List.all_eq_true.mp hgood _ hmem
      have h2 := List.all_eq_true.mp h1 _ hkv
      simp only [Bool.and_eq_true, Bool.not_eq_true', beq_eq_false_iff_ne] at h2
      obtain ⟨hne, hbf⟩ := h2
      rw [pyFormat_braceFree [] hbf] at h
      have hst : s = t := by
        cases t
        simpa using h.symm
      rw [hst]
      exact hne

/-! ### Path lemmas for `analyseLocal` -/

theorem analyze_mem_fst {st : EngineState} {text : String} (x : Rule × Nat)
    (h : x ∈ RuleEngine_analyze st text) :
    ∃ rp ∈ st.compiled, rp.1 = x.1 := by
  unfold RuleEngine_analyze at h
  obtain ⟨rp, hrp, hfx⟩ := List.mem_filterMap.mp h
  refine ⟨rp, hrp, ?_⟩
  by_cases hc : rp.1.min_hits ≤ ((rp.2.map (fun p => findallCount p text.data)).sum : Int)
  · rw [if_pos hc] at hfx
    rw [← Option.some.inj hfx]
  · rw [if_neg hc] at hfx
    cases hfx

theorem rulesPath_ok {st : EngineState} {tm : Templates}
    (fb : Option EmailAIResult) {text : String} {best : Rule × Nat}
    {rest : List (Rule × Nat)}
    (h : RuleEngine_analyze st text = best :: rest)
    (hov : overrideOKB best.1 = true)
    (hfr : hasFriendlyB tm best.1.intent = true) :
    ∃ res msg,
      analyseLocal st tm fb text = .ok res ∧
      render_template tm best.1.intent (detect_tone text) [] = some msg ∧
      res.user_message = msg ∧
      res.used_strategy = "rules" ∧
      res.confidence = simple_confidence_from_hits
        (dictGetD (intentHitsMap (best :: rest)) best.1.intent best.2) 5 ∧
      0 ≤ res.confidence ∧ res.confidence ≤ 1 ∧
      res.short_reason = mkShortReason best.1.name
        (dictGetD (intentHitsMap (best :: rest)) best.1.intent best.2) ∧
      res.matched_intents = (best :: rest).map (fun rh => rh.1.intent) ∧
      parseCategory (pyOrStr best.1.category_override
        (if (6 : ℚ) / 10 ≤ res.confidence then "Produtivo" else "Improdutivo"))
        = some res.category := by
  obtain ⟨best_rule, best_hits⟩ := best
  obtain ⟨msg, hmsg⟩ := render_template_isSome hfr (detect_tone text) []
  have hconf := simple_confidence_bounds
    (dictGetD (intentHitsMap ((best_rule, best_hits) :: rest)) best_rule.intent best_hits)
  have hne := parseCategory_pyOrStr hov
    (if (6 : ℚ) / 10 ≤ simple_confidence_from_hits
        (dictGetD (intentHitsMap ((best_rule, best_hits) :: rest)) best_rule.intent best_hits) 5
     then "Produtivo" else "Improdutivo") (parseCategory_ite _)
  obtain ⟨cat, hcat⟩ := Option.ne_none_iff_exists'.mp hne
  refine ⟨⟨cat, simple_confidence_from_hits
      (dictGetD (intentHitsMap ((best_rule, best_hits) :: rest)) best_rule.intent best_hits) 5,
      mkShortReason best_rule.name
        (dictGetD (intentHitsMap ((best_rule, best_hits) :: rest)) best_rule.intent best_hits),
      msg, "rules", ((best_rule, best_hits) :: rest).map (fun rh => rh.1.intent)⟩, msg,
    ?_, hmsg, rfl, rfl, rfl, hconf.1, hconf.2, rfl, rfl, hcat⟩
  unfold analyseLocal
  rw [h]
  dsimp only
  rw [hmsg, hcat]
  rw [mkEmailAIResult_eq_some.mpr ⟨cat, msg, rfl, rfl, hconf.1, hconf.2, rfl⟩]

theorem analyseLocal_nil_ok {st : EngineState} {tm : Templates}
    {fb : Option EmailAIResult} {text : String}
    (h : RuleEngine_analyze st text = [])
    (hgen : hasFriendlyB tm "general" = true)
    (hfb : ∀ f, fb = some f → 0 ≤ f.confidence ∧ f.confidence ≤ 1) :
    ∃ res, analyseLocal st tm fb text = .ok res ∧
      0 ≤ res.confidence ∧ res.confidence ≤ 1 ∧
      res.used_strategy ≠ "openai" ∧
      (templatesGoodB tm = true → res.user_message ≠ "") := by
  obtain ⟨gmsg, hgmsg⟩ := render_template_isSome hgen (detect_tone text) []
  unfold analyseLocal
  rw [h]
  dsimp only
  by_cases hreq : searchB requestRe text.data = true
  · rw [if_pos hreq, hgmsg,
      mkEmailAIResult_eq_some.mpr ⟨.Produtivo, gmsg, rfl, rfl, by norm_num, by norm_num, rfl⟩]
    exact ⟨_, rfl, by norm_num, by norm_num, by simp,
      fun hg => render_some_ne_empty hg hgmsg rfl⟩
  · rw [if_neg hreq]
    cases fb with
    | some f =>
      dsimp only
      have hbf := hfb f rfl
      by_cases hfm : f.user_message = ""
      · rw [if_pos hfm, hgmsg,
          mkEmailAIResult_eq_some.mpr ⟨f.category, gmsg, rfl, rfl, hbf.1, hbf.2, rfl⟩]
        exact ⟨_, rfl, hbf.1, hbf.2, by simp,
          fun hg => render_some_ne_empty hg hgmsg rfl⟩
      · rw [if_neg hfm,
          mkEmailAIResult_eq_some.mpr ⟨f.category, f.user_message, rfl, rfl, hbf.1, hbf.2, rfl⟩]
        exact ⟨_, rfl, hbf.1, hbf.2, by simp, fun _ => hfm⟩
    | none =>
      dsimp only
      rw [hgmsg,
        mkEmailAIResult_eq_some.mpr ⟨.Improdutivo, gmsg, rfl, rfl, by norm_num, by norm_num, rfl⟩]
      exact ⟨_, rfl, by norm_num, by norm_num, by simp,
        fun hg => render_some_ne_empty hg hgmsg rfl⟩

/-- Master lemma: with a template table whose chosen `"general"` map
has a `"friendly"` entry, and an engine whose compiled rules all carry
a pydantic-acceptable `category_override` and an intent with a
`"friendly"` fallback, `analyse_with_openai` never raises, and its
confidence is always in `[0, 1]`; moreover on every path except the
high-confidence remote acceptance the user message is one of the
stored templates (hence non-empty when the table is well formed). -/
theorem analyse_ok (st : EngineState) (tm : Templates)
    (hgen : hasFriendlyB tm "general" = true)
    (hr : ∀ rp ∈ st.compiled, overrideOKB rp.1 = true ∧ hasFriendlyB tm rp.1.intent = true)
    (remote : RemoteOutcome) (text : String) :
    ∃ res, analyse_with_openai st tm remote text = .ok res ∧
      0 ≤ res.confidence ∧ res.confidence ≤ 1 ∧
      (res.used_strategy = "openai" ∨
        (templatesGoodB tm = true → res.user_message ≠ "")) := by
  unfold analyse_with_openai
  dsimp only
  have hlocal : ∀ fb, (∀ f, fb = some f → 0 ≤ f.confidence ∧ f.confidence ≤ 1) →
      ∃ res, analyseLocal st tm fb (pyStripS text) = .ok res ∧
        0 ≤ res.confidence ∧ res.confidence ≤ 1 ∧
        (res.used_strategy = "openai" ∨
          (templatesGoodB tm = true → res.user_message ≠ "")) := by
    intro fb hfb
    cases hrh : RuleEngine_analyze st (pyStripS text) with
    | nil =>
      obtain ⟨res, h1, h2, h3, _, h5⟩ := analyseLocal_nil_ok hrh hgen hfb
      exact ⟨res, h1, h2, h3, .inr h5⟩
    | cons best rest =>
      obtain ⟨rp, hrp, hrpe⟩ :=
        analyze_mem_fst best (by rw [hrh]; exact List.mem_cons_self _ _)
      have hgood := hr rp hrp
      obtain ⟨res, msg, h1, h2, h3, _, _, h6, h7, _, _, _⟩ :=
        rulesPath_ok fb hrh (hrpe ▸ hgood.1) (hrpe ▸ hgood.2)
      refine ⟨res, h1, h6, h7, .inr (fun hg => ?_)⟩
      rw [h3]
      exact render_some_ne_empty hg h2 rfl
  by_cases hempty : pyStripS text = ""
  · rw [if_pos hempty,
      mkEmailAIResult_eq_some.mpr ⟨.Improdutivo, "Nenhum conteúdo encontrado no email.",
        rfl, rfl, le_refl 0, by norm_num, rfl⟩]
    exact ⟨_, rfl, le_refl 0, by norm_num, .inr (fun _ => by decide)⟩
  · rw [if_neg hempty]
    cases htro : tryOpenaiClassify remote with
    | none =>
      dsimp only
      exact hlocal none (fun f hf => Option.noConfusion hf)
    | some ai =>
      dsimp only
      have hai := tryOpenaiClassify_bounds htro
      by_cases hconf : (65 : ℚ) / 100 ≤ ai.confidence
      · rw [if_pos hconf]
        exact ⟨{ ai with used_strategy := "openai" }, rfl, hai.1, hai.2.1, .inl rfl⟩
      · rw [if_neg hconf]
        exact hlocal (some ai) (fun f hf => (Option.some.inj hf) ▸ ⟨hai.1, hai.2.1⟩)

/-! ### Reachable template states -/

/-- Template tables reachable at runtime: the module-level default,
mutated by any number of `add_template` calls. -/
inductive ReachableTemplates : Templates → Prop where
  | base : ReachableTemplates TEMPLATES_def
  | step : ∀ tm intent tone text, ReachableTemplates tm →
      ReachableTemplates (add_template tm intent tone text)

/-- The key configuration invariant: `"general"` is present and its
map has a `"friendly"` entry. -/
def generalOK (tm : Templates) : Prop :=
  ∃ m s, dictGet tm "general" = some m ∧ dictGet m "friendly" = some s

theorem generalOK_hasFriendly {tm : Templates} (h : generalOK tm) :
    hasFriendlyB tm "general" = true := by
  obtain ⟨m, s, hm, hs⟩ := h
  unfold hasFriendlyB chosenMap
  rw [hm]
  have hne : m.isEmpty = false := by
    cases m with
    | nil => cases hs
    | cons a l => rfl
  simp only [hne, Bool.false_eq_true, if_false, hs, Option.isSome_some]

theorem add_template_generalOK {tm : Templates} (h : generalOK tm)
    (intent tone text : String) : generalOK (add_template tm intent tone text) := by
  obtain ⟨m, s, hm, hs⟩ := h
  unfold add_template
  by_cases hI : intent = "general"
  · subst hI
    rw [hm]
    simp only [Option.isNone_some, Bool.false_eq_true, if_false]
    have hD : dictGetD tm "general" [] = m := by simp [dictGetD, hm]
    rw [hD]
    refine ⟨dictSet m tone text, ?_⟩
    by_cases ht : tone = "friendly"
    · subst ht
      exact ⟨text, dictGet_dictSet_self _ _ _, dictGet_dictSet_self _ _ _⟩
    · refine ⟨s, dictGet_dictSet_self _ _ _, ?_⟩
      rw [dictGet_dictSet_ne _ _ _ _ ht]
      exact hs
  · refine ⟨m, s, ?_, hs⟩
    rw [dictGet_dictSet_ne _ _ _ _ hI]
    by_cases hN : (dictGet tm intent).isNone
    · rw [if_pos hN, dictGet_dictSet_ne _ _ _ _ hI]
      exact hm
    · rw [if_neg hN]
      exact hm

theorem reachable_generalOK {tm : Templates} (h : ReachableTemplates tm) :
    generalOK tm := by
  induction h with
  | base =>
    exact ⟨[("friendly", "Obrigado pela mensagem! Vamos analisar e retornar assim que possível."),
      ("formal", "Agradecemos o contato. Analisaremos e daremos retorno em breve."),
      ("concise", "Mensagem recebida. Retornaremos em breve.")],
      "Obrigado pela mensagem! Vamos analisar e retornar assim que possível.",
      by decide, by decide⟩
  | step tm intent tone text _ ih => exact add_template_generalOK ih intent tone text

/-! ### Compilation and `analyze` structure (for the rule-engine claims) -/

theorem compilePats_eq {ps : List Pattern} {l : List RE}
    (h : compilePats ps = some l) : l = ps.filterMap compilePat := by
  induction ps generalizing l with
  | nil =>
    cases h
    rfl
  | cons p rest ih =>
    unfold compilePats at h
    cases hp : compilePat p with
    | none => rw [hp] at h; cases h
    | some r =>
      rw [hp] at h
      cases hr : compilePats rest with
      | none => rw [hr] at h; cases h
      | some rs =>
        rw [hr] at h
        cases h
        rw [List.filterMap_cons, hp]
        rw [ih hr]

theorem compileAll_eq {rules : List Rule} {comp : List (Rule × List RE)}
    (h : compileAll rules = some comp) :
    comp = rules.map (fun r => (r, r.patterns.filterMap compilePat)) := by
  induction rules generalizing comp with
  | nil =>
    cases h
    rfl
  | cons r rest ih =>
    unfold compileAll compileRule at h
    cases hp : compilePats r.patterns with
    | none => rw [hp] at h; cases h
    | some ps =>
      rw [hp] at h
      cases hr : compileAll rest with
      | none =>
        rw [hr] at h
        exact absurd h (by simp)
      | some comps =>
        rw [hr] at h
        have h2 : some ((r, ps) :: comps) = some comp := h
        obtain rfl := Option.some.inj h2
        rw [List.map_cons, ih hr, compilePats_eq hp]

theorem compileAll_isSome_iff {rules : List Rule} :
    (compileAll rules).isSome = true ↔ ∀ r ∈ rules, (compileRule r).isSome = true := by
  induction rules with
  | nil => simp [compileAll]
  | cons r rest ih =>
    unfold compileAll
    have hmatch : ∀ (o1 : Option (Rule × List RE)) (o2 : Option (List (Rule × List RE))),
        (match o1, o2 with
          | some p, some ps => some (p :: ps)
          | _, _ => (none : Option (List (Rule × List RE)))).isSome
        = (o1.isSome && o2.isSome) := by
      intro o1 o2
      cases o1 <;> cases o2 <;> rfl
    rw [hmatch, Bool.and_eq_true, ih]
    simp [List.forall_mem_cons]

/-- The total `findall` hit count of a rule over all its (compiled)
patterns. -/
def totalHits (r : Rule) (text : String) : Nat :=
  ((r.patterns.filterMap compilePat).map (fun p => findallCount p text.data)).sum

theorem filterMap_guard {α β : Type} (p : α → Bool) (g : α → β) (l : List α) :
    l.filterMap (fun a => if p a then some (g a) else none)
      = (l.filter p).map g := by
  induction l with
  | nil => rfl
  | cons a rest ih =>
    rw [List.filterMap_cons, List.filter_cons]
    by_cases hp : p a
    · rw [if_pos hp, if_pos hp, List.map_cons, ih]
    · rw [if_neg hp, if_neg hp, ih]

theorem mkRuleEngine_spec {rules : List Rule} {st : EngineState}
    (h : mkRuleEngine rules = some st) :
    st.rules = sortRules rules ∧
      st.compiled = (sortRules rules).map (fun r => (r, r.patterns.filterMap compilePat)) := by
  unfold mkRuleEngine at h
  cases hc : compileAll (sortRules rules) with
  | none => rw [hc] at h; cases h
  | some comp =>
    rw [hc] at h
    have h2 : some (⟨sortRules rules, comp⟩ : EngineState) = some st := h
    obtain rfl := (Option.some.inj h2).symm
    exact ⟨rfl, compileAll_eq hc⟩

/-- `analyze` is exactly: keep the (sorted) rules whose total hit count
reaches `min_hits`, paired with that count. -/
theorem analyze_eq {rules : List Rule} {st : EngineState}
    (h : mkRuleEngine rules = some st) (text : String) :
    RuleEngine_analyze st text
      = (st.rules.filter (fun r => decide (r.min_hits ≤ (totalHits r text : Int)))).map
          (fun r => (r, totalHits r text)) := by
  obtain ⟨h1, h2⟩ := mkRuleEngine_spec h
  unfold RuleEngine_analyze
  rw [h2, h1, List.filterMap_map]
  rw [← filterMap_guard (fun r => decide (r.min_hits ≤ (totalHits r text : Int)))
    (fun r => (r, totalHits r text))]
  congr 1
  funext r
  simp only [Function.comp]
  unfold totalHits
  by_cases hP : r.min_hits ≤
      ((((r.patterns.filterMap compilePat).map (fun p => findallCount p text.data)).sum : Nat) : Int)
  · rw [if_pos hP, if_pos (by simpa using hP)]
  · rw [if_neg hP, if_neg (by simpa using hP)]

theorem ruleSortLE_trans : ∀ (a b c : Rule),
    ruleSortLE a b → ruleSortLE b c → ruleSortLE a c := by
  intro a b c hab hbc
  simp only [ruleSortLE, decide_eq_true_eq] at hab hbc ⊢
  omega

theorem ruleSortLE_total : ∀ (a b : Rule), ruleSortLE a b || ruleSortLE b a := by
  intro a b
  simp only [ruleSortLE, Bool.or_eq_true, decide_eq_true_eq]
  omega

theorem sortRules_sorted (rules : List Rule) :
    (sortRules rules).Pairwise (fun a b => b.priority ≤ a.priority) := by
  have h := List.sorted_mergeSort ruleSortLE_trans ruleSortLE_total rules
  exact h.imp (fun hab => by simpa [ruleSortLE] using hab)

theorem sortRules_stable (rules : List Rule) (p : Int) :
    (sortRules rules).filter (fun r => r.priority == p)
      = rules.filter (fun r => r.priority == p) := by
  have hall : ∀ a ∈ rules.filter (fun r => r.priority == p),
      ∀ b ∈ rules.filter (fun r => r.priority == p), ruleSortLE a b = true := by
    intro a ha b hb
    have ha' := (List.mem_filter.mp ha).2
    have hb' := (List.mem_filter.mp hb).2
    simp only [beq_iff_eq] at ha' hb'
    simp [ruleSortLE, ha', hb']
  have hpw : (rules.filter (fun r => r.priority == p)).Pairwise
      (fun a b => ruleSortLE a b = true) :=
    List.pairwise_of_forall_mem_list hall
  have hsub : List.Sublist (rules.filter (fun r => r.priority == p)) (sortRules rules) :=
    List.sublist_mergeSort ruleSortLE_trans ruleSortLE_total hpw
      (List.filter_sublist rules)
  have hsub2 : List.Sublist (rules.filter (fun r => r.priority == p))
      ((sortRules rules).filter (fun r => r.priority == p)) := by
    have := hsub.filter (fun r => r.priority == p)
    rwa [List.filter_filter, show ∀ l : List Rule,
      (l.filter fun r => (r.priority == p) && (r.priority == p)) = l.filter fun r => r.priority == p
      from fun l => by congr 1; funext r; rw [Bool.and_self]] at this
  have hperm : List.Perm ((sortRules rules).filter (fun r => r.priority == p))
      (rules.filter (fun r => r.priority == p)) :=
    (List.mergeSort_perm rules ruleSortLE).filter _
  exact (hsub2.eq_of_length hperm.length_eq.symm).symm

/-! ### `add_rule` behaviour -/

theorem add_rule_cases (st : EngineState) (r : Rule) :
    ((compileAll (sortRules (st.rules ++ [r]))).isSome = true →
      add_rule st r = (⟨sortRules (st.rules ++ [r]),
        (compileAll (sortRules (st.rules ++ [r]))).getD []⟩, false)) ∧
    ((compileAll (sortRules (st.rules ++ [r]))).isSome = false →
      add_rule st r = (⟨sortRules (st.rules ++ [r]), st.compiled⟩, true) ∧
      ∀ text, RuleEngine_analyze (add_rule st r).1 text = RuleEngine_analyze st text) := by
  unfold add_rule RuleEngine_init
  dsimp only
  cases hc : compileAll (sortRules (st.rules ++ [r])) with
  | none =>
    constructor
    · intro h
      exact Bool.noConfusion h
    · intro _
      constructor
      · rfl
      · intro text
        rfl
  | some comp =>
    constructor
    · intro _
      rfl
    · intro h
      exact Bool.noConfusion h

/-! ### `preprocess_pt` structure -/

theorem char_ofNat_toNat : ∀ n : Nat, n < 256 → (Char.ofNat n).toNat = n := by decide

theorem pyLowerChar_idem (c : Char) : pyLowerChar (pyLowerChar c) = pyLowerChar c := by
  unfold pyLowerChar
  by_cases h : (65 ≤ c.toNat ∧ c.toNat ≤ 90) ∨ ((192 ≤ c.toNat ∧ c.toNat ≤ 222) ∧ c.toNat ≠ 215)
  · rw [if_pos h]
    have hv : c.toNat + 32 < 256 := by omega
    have ht := char_ofNat_toNat (c.toNat + 32) hv
    rw [if_neg (by rw [ht]; omega)]
  · rw [if_neg h, if_neg h]

theorem mem_subRunsGo {p : Char → Bool} {rep : Char} :
    ∀ (cs : List Char) (b : Bool) (c : Char), c ∈ subRunsGo p rep b cs →
      c = rep ∨ (c ∈ cs ∧ p c = false) := by
  intro cs
  induction cs with
  | nil =>
    intro b c h
    cases b <;> cases h
  | cons a rest ih =>
    intro b c h
    have lift : c = rep ∨ (c ∈ rest ∧ p c = false) →
        c = rep ∨ (c ∈ a :: rest ∧ p c = false) := by
      rintro (h1 | ⟨h1, h2⟩)
      · exact Or.inl h1
      · exact Or.inr ⟨List.mem_cons_of_mem a h1, h2⟩
    cases b with
    | true =>
      unfold subRunsGo at h
      by_cases hp : p a = true
      · rw [if_pos hp] at h
        exact lift (ih true c h)
      · rw [if_neg hp] at h
        rcases List.mem_cons.mp h with rfl | h'
        · exact Or.inr ⟨List.mem_cons_self _ _, by simpa using hp⟩
        · exact lift (ih false c h')
    | false =>
      unfold subRunsGo at h
      by_cases hp : p a = true
      · rw [if_pos hp] at h
        rcases List.mem_cons.mp h with rfl | h'
        · exact Or.inl rfl
        · exact lift (ih true c h')
      · rw [if_neg hp] at h
        rcases List.mem_cons.mp h with rfl | h'
        · exact Or.inr ⟨List.mem_cons_self _ _, by simpa using hp⟩
        · exact lift (ih false c h')

theorem head_subRunsGo_true {p : Char → Bool} {rep : Char} :
    ∀ (cs : List Char) (c : Char),
      (subRunsGo p rep true cs).head? = some c → p c = false := by
  intro cs
  induction cs with
  | nil => intro c h; cases h
  | cons a rest ih =>
    intro c h
    unfold subRunsGo at h
    by_cases hp : p a = true
    · rw [if_pos hp] at h
      exact ih c h
    · rw [if_neg hp] at h
      obtain rfl := Option.some.inj h
      simpa using hp

theorem chain'_subRunsGo {p : Char → Bool} {rep : Char} :
    ∀ (cs : List Char) (b : Bool),
      List.Chain' (fun x y => ¬(p x = true ∧ p y = true)) (subRunsGo p rep b cs) := by
  intro cs
  induction cs with
  | nil => intro b; cases b <;> exact List.chain'_nil
  | cons a rest ih =>
    intro b
    cases b with
    | true =>
      unfold subRunsGo
      by_cases hp : p a = true
      · rw [if_pos hp]
        exact ih true
      · rw [if_neg hp]
        refine List.chain'_cons'.mpr ⟨?_, ih false⟩
        intro y _ hxy
        exact hp hxy.1
    | false =>
      unfold subRunsGo
      by_cases hp : p a = true
      · rw [if_pos hp]
        refine List.chain'_cons'.mpr ⟨?_, ih true⟩
        intro y hy hxy
        have hf := head_subRunsGo_true rest y hy
        rw [hxy.2] at hf
        exact Bool.noConfusion hf
      · rw [if_neg hp]
        refine List.chain'_cons'.mpr ⟨?_, ih false⟩
        intro y _ hxy
        exact hp hxy.1

theorem chain'_dropWhile {R : Char → Char → Prop} {q : Char → Bool} :
    ∀ {l : List Char}, List.Chain' R l → List.Chain' R (l.dropWhile q) := by
  intro l
  induction l with
  | nil => intro h; exact h
  | cons a rest ih =>
    intro h
    rw [List.dropWhile_cons]
    by_cases hq : q a = true
    · rw [if_pos hq]
      exact ih h.tail
    · rw [if_neg hq]
      exact h

theorem head?_dropWhile {q : Char → Bool} :
    ∀ (l : List Char) (c : Char), (l.dropWhile q).head? = some c → q c = false := by
  intro l
  induction l with
  | nil => intro c h; cases h
  | cons a rest ih =>
    intro c h
    rw [List.dropWhile_cons] at h
    by_cases hq : q a = true
    · rw [if_pos hq] at h
      exact ih c h
    · rw [if_neg hq] at h
      obtain rfl := Option.some.inj h
      simpa using hq

theorem getLast?_dropWhile_ne_nil {q : Char → Bool} :
    ∀ (l : List Char), l.dropWhile q ≠ [] →
      (l.dropWhile q).getLast? = l.getLast? := by
  intro l
  induction l with
  | nil => intro h; exact absurd rfl h
  | cons a rest ih =>
    intro h
    rw [List.dropWhile_cons] at h ⊢
    by_cases hq : q a = true
    · rw [if_pos hq] at h ⊢
      have hrest : rest ≠ [] := by
        intro he
        subst he
        exact h (by rfl)
      cases rest with
      | nil => exact absurd rfl hrest
      | cons b rest' =>
        rw [List.getLast?_cons_cons]
        exact ih h
    · rw [if_neg hq]

theorem mem_pyStrip {cs : List Char} {c : Char} (h : c ∈ pyStrip cs) : c ∈ cs := by
  unfold pyStrip at h
  rw [List.mem_reverse] at h
  have h1 := (List.dropWhile_sublist _).mem h
  rw [List.mem_reverse] at h1
  exact (List.dropWhile_sublist _).mem h1

theorem chain'_pyStrip {R : Char → Char → Prop}
    {cs : List Char} (h : List.Chain' R cs) : List.Chain' R (pyStrip cs) := by
  unfold pyStrip
  rw [List.chain'_reverse]
  exact chain'_dropWhile (List.chain'_reverse.mpr (chain'_dropWhile h))

theorem pyStrip_head {cs : List Char} {c : Char}
    (h : (pyStrip cs).head? = some c) : isPySpace c = false := by
  unfold pyStrip at h
  rw [List.head?_reverse] at h
  have hne : (List.reverse (cs.dropWhile isPySpace)).dropWhile isPySpace ≠ [] := by
    intro he
    rw [he] at h
    cases h
  rw [getLast?_dropWhile_ne_nil _ hne, List.getLast?_reverse] at h
  exact head?_dropWhile _ c h

theorem pyStrip_getLast {cs : List Char} {c : Char}
    (h : (pyStrip cs).getLast? = some c) : isPySpace c = false := by
  unfold pyStrip at h
  rw [List.getLast?_reverse] at h
  exact head?_dropWhile _ c h

theorem pyStrip_eq_nil {cs : List Char} (h : ∀ c ∈ cs, isPySpace c = true) :
    pyStrip cs = [] := by
  unfold pyStrip
  have h1 : cs.dropWhile isPySpace = [] :=
    List.dropWhile_eq_nil_iff.mpr (by simpa using h)
  rw [h1]
  rfl

/-! ## The claims -/

attribute [local semireducible] Rat.add Rat.mul Rat.inv Rat.sub Rat.ofScientific

/-- C1: For every input text and every remote-classifier outcome,
`analyse_with_openai` (run against the module-level default engine and
templates) returns an `EmailAIResult` whose `category` is exactly one
of Produtivo/Improdutivo and whose `confidence` lies in `[0, 1]` —
never null, never out of range (and in particular it returns a result
rather than raising). -/
theorem C1_result_invariants (remote : RemoteOutcome) (input : String) :
    ∃ res, analyse_with_openai defaultEngine TEMPLATES_def remote input = .ok res ∧
      (res.category = .Produtivo ∨ res.category = .Improdutivo) ∧
      0 ≤ res.confidence ∧ res.confidence ≤ 1 := by
  obtain ⟨res, h1, h2, h3, _⟩ := analyse_ok defaultEngine TEMPLATES_def
    (by decide)
    (by rw [defaultEngine_eq]; decide) remote input
  refine ⟨res, h1, ?_, h2, h3⟩
  cases res.category
  · exact Or.inl rfl
  · exact Or.inr rfl

/-- A rule whose `category_override` is not one of the values pydantic
accepts; registering it through `add_rule` is what refutes C2. -/
def badOverrideRule : Rule :=
  { name := "bad_override", patterns := [.ok (reW "zzz")], priority := 10,
    intent := "support", category_override := some "Banana" }

/-- C2, counterexample: after the runtime registration
`add_rule(badOverrideRule)` — a state reachable through the runtime
registration operations — `analyse_with_openai` on a text matched only
by that rule raises a pydantic `ValidationError` (the invalid
`category_override` reaches the `EmailAIResult` constructor outside
any `try`), so an exception does propagate to the caller. -/
theorem C2_counterexample :
    analyse_with_openai (add_rule defaultEngine badOverrideRule).1 TEMPLATES_def
      .unavailable "zzz" = .error () := by
  have h2 : (add_rule defaultEngine badOverrideRule).1
      = ⟨DEFAULT_RULES ++ [badOverrideRule],
         (compileAll (DEFAULT_RULES ++ [badOverrideRule])).getD []⟩ := by
    rw [defaultEngine_eq]
    unfold add_rule RuleEngine_init sortRules
    rw [List.mergeSort_of_sorted (by decide)]
    decide
  rw [h2]
  decide

/-- C2, amended: no error is propagated as an exception for every
input, every remote outcome, and every template state reachable through
`add_template`, **provided** every compiled rule of the engine state
carries a pydantic-acceptable `category_override` (`None`, `""`,
`"Produtivo"` or `"Improdutivo"`) and an intent whose chosen tone map
has a `"friendly"` entry — conditions the default state satisfies but
which `add_rule` does not enforce. -/
theorem C2_amended (st : EngineState) (tm : Templates)
    (hreach : ReachableTemplates tm)
    (hr : ∀ rp ∈ st.compiled, overrideOKB rp.1 = true ∧ hasFriendlyB tm rp.1.intent = true)
    (remote : RemoteOutcome) (input : String) :
    ∃ res, analyse_with_openai st tm remote input = .ok res := by
  obtain ⟨res, h1, -⟩ := analyse_ok st tm
    (generalOK_hasFriendly (reachable_generalOK hreach)) hr remote input
  exact ⟨res, h1⟩

/-- Witness for C2's amended theorem at the default state. -/
theorem C2_amended_witness :
    analyse_with_openai defaultEngine TEMPLATES_def .unavailable "olá"
      = .ok ⟨.Improdutivo, 55 / 100, "Nenhuma regra ou padrão de solicitação detectado.",
          "Mensagem recebida. Retornaremos em breve.", "fallback", []⟩ := by
  have h := C2_amended defaultEngine TEMPLATES_def ReachableTemplates.base
    (by rw [defaultEngine_eq]; decide) .unavailable "olá"
  rw [defaultEngine_eq]
  decide

/-- C3: every empty or whitespace-only input yields exactly
category Improdutivo, confidence 0.0, `used_strategy = "none"` (with
the fixed empty-input texts). -/
theorem C3_empty_input (remote : RemoteOutcome) (input : String)
    (h : ∀ c ∈ input.data, isPySpace c = true) :
    analyse_with_openai defaultEngine TEMPLATES_def remote input
      = .ok ⟨.Improdutivo, 0, "Texto vazio",
          "Nenhum conteúdo encontrado no email.", "none", []⟩ := by
  have hstrip : pyStripS input = "" := by
    unfold pyStripS
    rw [pyStrip_eq_nil h]
  unfold analyse_with_openai
  dsimp only
  rw [if_pos hstrip,
    mkEmailAIResult_eq_some.mpr ⟨.Improdutivo, "Nenhum conteúdo encontrado no email.",
      rfl, rfl, le_refl 0, by norm_num, rfl⟩]

/-- Witness for C3 on a concrete whitespace-only input. -/
theorem C3_empty_input_witness :
    analyse_with_openai defaultEngine TEMPLATES_def .unavailable "  \t "
      = .ok ⟨.Improdutivo, 0, "Texto vazio",
          "Nenhum conteúdo encontrado no email.", "none", []⟩ :=
  C3_empty_input .unavailable "  \t " (by decide)

def c4text : String := "Preciso de ajuda, erro no login, protocolo 4521"

/-- What the code actually returns on `c4text` with the remote
classifier absent. -/
def c4result : EmailAIResult :=
  ⟨.Produtivo, 68 / 100, mkShortReason "support_generic" 2,
    "Chamado de suporte criado. Envie mais detalhes, por favor.", "rules", ["support"]⟩

/-- C4, counterexample: on "Preciso de ajuda, erro no login, protocolo
4521" with the remote classifier absent, the returned confidence is
0.68, not ≥ 0.90 — there is no protocol-number rule in `DEFAULT_RULES`;
the `support_generic` rule (2 hits: "ajuda", "erro") wins. -/
theorem C4_counterexample :
    analyse_with_openai defaultEngine TEMPLATES_def .unavailable c4text = .ok c4result ∧
      ¬ ((9 : ℚ) / 10 ≤ c4result.confidence) := by
  constructor
  · rw [defaultEngine_eq]
    decide
  · decide

/-- C4, amended: on that text with the remote classifier absent the
code returns category Produtivo with confidence exactly 0.68, produced
by the `support_generic` rule (hits = 2) under `used_strategy =
"rules"`. -/
theorem C4_amended :
    analyse_with_openai defaultEngine TEMPLATES_def .unavailable c4text = .ok c4result ∧
      c4result.category = .Produtivo ∧
      c4result.confidence = simple_confidence_from_hits 2 5 ∧
      c4result.confidence = 68 / 100 ∧
      c4result.used_strategy = "rules" ∧
      c4result.short_reason = mkShortReason "support_generic" 2 := by
  refine ⟨?_, rfl, by decide, by decide, rfl, rfl⟩
  rw [defaultEngine_eq]
  decide

/-- C5: arbitration policy.  If the remote classifier returns a result
with confidence ≥ 0.65, that result is returned immediately under the
remote ("openai") strategy.  If its confidence is below 0.65 and at
least one rule fires on the (stripped) text, the final result is
derived from the highest-priority rule hit — its name, its
intent's summed hit count, the hit-derived confidence and the
override-or-default category — under `used_strategy = "rules"`: the
low-confidence remote candidate never overrides a rule match. -/
theorem C5_arbitration (remote : RemoteOutcome) (input : String) (r : EmailAIResult)
    (htro : tryOpenaiClassify remote = some r) (hne : pyStripS input ≠ "") :
    (((65 : ℚ) / 100 ≤ r.confidence →
      analyse_with_openai defaultEngine TEMPLATES_def remote input
        = .ok { r with used_strategy := "openai" })) ∧
    (¬ ((65 : ℚ) / 100 ≤ r.confidence) →
      ∀ best rest, RuleEngine_analyze defaultEngine (pyStripS input) = best :: rest →
      ∃ res, analyse_with_openai defaultEngine TEMPLATES_def remote input = .ok res ∧
        res.used_strategy = "rules" ∧
        res.short_reason = mkShortReason best.1.name
          (dictGetD (intentHitsMap (best :: rest)) best.1.intent best.2) ∧
        res.confidence = simple_confidence_from_hits
          (dictGetD (intentHitsMap (best :: rest)) best.1.intent best.2) 5 ∧
        parseCategory (pyOrStr best.1.category_override
          (if (6 : ℚ) / 10 ≤ res.confidence then "Produtivo" else "Improdutivo"))
          = some res.category) := by
  constructor
  · intro hconf
    unfold analyse_with_openai
    dsimp only
    rw [if_neg hne, htro]
    dsimp only
    rw [if_pos hconf]
  · intro hconf best rest hrh
    have hgoal : analyse_with_openai defaultEngine TEMPLATES_def remote input
        = analyseLocal defaultEngine TEMPLATES_def (some r) (pyStripS input) := by
      unfold analyse_with_openai
      dsimp only
      rw [if_neg hne, htro]
      dsimp only
      rw [if_neg hconf]
    have hall : ∀ rp ∈ defaultEngine.compiled,
        overrideOKB rp.1 = true ∧ hasFriendlyB TEMPLATES_def rp.1.intent = true := by
      rw [defaultEngine_eq]
      decide
    obtain ⟨rp, hrp, hrpe⟩ :=
      analyze_mem_fst best (by rw [hrh]; exact List.mem_cons_self _ _)
    have hgood := hall rp hrp
    obtain ⟨res, msg, h1, _, _, h4, h5, _, _, h8, _, h10⟩ :=
      rulesPath_ok (some r) hrh (hrpe ▸ hgood.1) (hrpe ▸ hgood.2)
    exact ⟨res, hgoal.trans h1, h4, h8, h5, h5 ▸ h10⟩

def c5remoteHigh : RemoteOutcome :=
  .payload ⟨some "Produtivo", some (9 / 10), some "ok", some "Certo!"⟩

def c5remoteLow : RemoteOutcome :=
  .payload ⟨some "Produtivo", some (3 / 10), some "ok", some "Certo!"⟩

/-- Witness for C5: a high-confidence remote result is returned as-is
under the "openai" strategy; a low-confidence one on a rule-matching
text loses to the `support_generic` rule. -/
theorem C5_arbitration_witness :
    analyse_with_openai defaultEngine TEMPLATES_def c5remoteHigh "ajuda"
      = .ok ⟨.Produtivo, 9 / 10, "ok", "Certo!", "openai", []⟩ ∧
    analyse_with_openai defaultEngine TEMPLATES_def c5remoteLow "ajuda"
      = .ok ⟨.Produtivo, 59 / 100, mkShortReason "support_generic" 1,
          "Chamado de suporte criado. Envie mais detalhes, por favor.", "rules", ["support"]⟩ := by
  constructor
  · exact (C5_arbitration c5remoteHigh "ajuda" ⟨.Produtivo, 9 / 10, "ok", "Certo!", "openai", []⟩
      (by decide) (by decide)).1 (by decide)
  · have h := (C5_arbitration c5remoteLow "ajuda" ⟨.Produtivo, 3 / 10, "ok", "Certo!", "openai", []⟩
      (by decide) (by decide)).2
    rw [defaultEngine_eq]
    decide

def c6remote : RemoteOutcome := .payload ⟨some "Produtivo", some (9 / 10), none, none⟩

/-- C6, counterexample: a high-confidence remote outcome whose
`suggested_reply` is missing (defaulted to `""`) is returned verbatim:
the caller receives an **empty** `user_message`, so an empty
user-facing message can be returned. -/
theorem C6_counterexample :
    analyse_with_openai defaultEngine TEMPLATES_def c6remote "bom dia"
      = .ok ⟨.Produtivo, 9 / 10, "", "", "openai", []⟩ := by
  rw [defaultEngine_eq]
  decide

/-- C6, amended: on every path **except** the high-confidence remote
acceptance (`used_strategy = "openai"`, which returns the remote
suggested reply verbatim, possibly empty), the returned `user_message`
is non-empty; in particular an empty suggested reply on the
low-confidence remote fallback path is replaced by a rendered generic
message. -/
theorem C6_amended (remote : RemoteOutcome) (input : String) (res : EmailAIResult)
    (h : analyse_with_openai defaultEngine TEMPLATES_def remote input = .ok res)
    (hstrat : res.used_strategy ≠ "openai") : res.user_message ≠ "" := by
  obtain ⟨res', h1, _, _, hmsg⟩ := analyse_ok defaultEngine TEMPLATES_def
    (by decide)
    (by rw [defaultEngine_eq]; decide) remote input
  rw [h1] at h
  obtain rfl := Except.ok.inj h
  rcases hmsg with hopen | himpl
  · exact absurd hopen hstrat
  · exact himpl (by decide)

/-- Witness for C6's amended theorem on the final-fallback path. -/
theorem C6_amended_witness :
    ("Mensagem recebida. Retornaremos em breve." : String) ≠ "" :=
  C6_amended .unavailable "olá"
    ⟨.Improdutivo, 55 / 100, "Nenhuma regra ou padrão de solicitação detectado.",
      "Mensagem recebida. Retornaremos em breve.", "fallback", []⟩
    (by rw [defaultEngine_eq]; decide) (by decide)

/-- Modelled from the spec: the normalizer C7 claims — lowercase,
**strip accents by Unicode decomposition discarding combining marks**,
collapse whitespace and trim, replace non-word characters with spaces,
collapse again.  (`preprocess_pt` differs in that it never applies the
accent-stripping step.) -/
def preprocess_pt_spec (text : String) : String :=
  if text = "" then ""
  else
    let s := (strip_accents (pyLowerS text)).data
    let s := pyStrip (subRuns isPySpace ' ' s)
    let s := subRuns (fun c => !keepCharPre c) ' ' s
    String.mk (pyStrip (subRuns isPySpace ' ' s))

/-- C7, counterexample: `preprocess_pt` does **not** strip accents —
`_strip_accents` is defined but never called by it.  On "é" the claimed
pipeline yields "e" while the code yields "é". -/
theorem C7_counterexample :
    preprocess_pt "é" = "é" ∧ preprocess_pt_spec "é" = "e" ∧
      preprocess_pt "é" ≠ preprocess_pt_spec "é" := by
  exact ⟨by decide, by decide, by decide⟩

/-- C7, amended: `preprocess_pt` lowercases its input, replaces
non-word characters (other than the preserved `À`–`ÿ` range) with
spaces, collapses repeated whitespace into single spaces and trims —
but does not strip accents; it is deterministic and pure (a total Lean
function), and empty or null input yields the empty string.  Stated as
invariants of the output: every character is a space or a kept word
character and is fixed by lower-casing; no two adjacent whitespace
characters; no leading or trailing whitespace. -/
theorem C7_amended :
    preprocess_pt_opt none = "" ∧ preprocess_pt "" = "" ∧
    ∀ s : String,
      (∀ c ∈ (preprocess_pt s).data,
        (c = ' ' ∨ keepCharPre c = true) ∧ pyLowerChar c = c) ∧
      List.Chain' (fun x y => ¬(isPySpace x = true ∧ isPySpace y = true))
        (preprocess_pt s).data ∧
      (∀ c, (preprocess_pt s).data.head? = some c → isPySpace c = false) ∧
      (∀ c, (preprocess_pt s).data.getLast? = some c → isPySpace c = false) := by
  refine ⟨rfl, rfl, fun s => ?_⟩
  by_cases hs : s = ""
  · subst hs
    exact ⟨fun c hc => absurd hc (List.not_mem_nil c), by decide,
      fun c hc => Option.noConfusion hc, fun c hc => Option.noConfusion hc⟩
  · unfold preprocess_pt
    rw [if_neg hs]
    have hdata : (String.mk (pyStrip (subRuns isPySpace ' '
        (subRuns (fun c => !keepCharPre c) ' '
          (pyStrip (subRuns isPySpace ' ' (s.data.map pyLowerChar))))))).data
        = pyStrip (subRuns isPySpace ' '
            (subRuns (fun c => !keepCharPre c) ' '
              (pyStrip (subRuns isPySpace ' ' (s.data.map pyLowerChar))))) := rfl
    rw [hdata]
    refine ⟨?_, chain'_pyStrip (chain'_subRunsGo _ false), fun c => pyStrip_head,
      fun c => pyStrip_getLast⟩
    intro c hc
    have h1 := mem_subRunsGo _ false c (mem_pyStrip hc)
    have hsp : pyLowerChar ' ' = ' ' := by decide
    rcases h1 with rfl | ⟨h2, _⟩
    · exact ⟨Or.inl rfl, hsp⟩
    · rcases mem_subRunsGo _ false c h2 with rfl | ⟨h3, hkeep⟩
      · exact ⟨Or.inl rfl, hsp⟩
      · have hk : keepCharPre c = true := by
          cases hkc : keepCharPre c
          · rw [hkc] at hkeep; cases hkeep
          · rfl
        rcases mem_subRunsGo _ false c (mem_pyStrip h3) with rfl | ⟨h4, _⟩
        · exact ⟨Or.inl rfl, hsp⟩
        · obtain ⟨c0, _, rfl⟩ := List.mem_map.mp h4
          exact ⟨Or.inr hk, pyLowerChar_idem c0⟩

/-- Witness for C7's amended theorem: instantiating its conditional
parts on a concrete input whose normalization starts with a non-space
character. -/
theorem C7_amended_witness : isPySpace 'o' = false :=
  (C7_amended.2.2 "  Olá,   MUNDO!  ").2.2.1 'o' (by decide)

def badPatternRule : Rule :=
  { name := "bad_pat", patterns := [.bad], priority := 10, intent := "support" }

def goodExtraRule : Rule :=
  { name := "extra_ok", patterns := [.ok (reWW "teste")], priority := 10,
    intent := "support", category_override := some "Produtivo" }

/-- C8, counterexample: `add_rule` with a rule whose pattern fails to
compile **does** partially apply: the exception is raised, the `rules`
list has been mutated (so the previous rule list does not remain
observable), yet the compiled pattern list still reflects the old rules
— readers see a partially rebuilt state in which `rules` and the
compiled rules disagree. -/
theorem C8_counterexample :
    (add_rule defaultEngine badPatternRule).2 = true ∧
    (add_rule defaultEngine badPatternRule).1.rules ≠ defaultEngine.rules ∧
    (add_rule defaultEngine badPatternRule).1.compiled.map Prod.fst
      ≠ (add_rule defaultEngine badPatternRule).1.rules := by
  have h2 : add_rule defaultEngine badPatternRule
      = (⟨DEFAULT_RULES ++ [badPatternRule], (compileAll DEFAULT_RULES).getD []⟩, true) := by
    rw [defaultEngine_eq]
    unfold add_rule RuleEngine_init sortRules
    rw [List.mergeSort_of_sorted (by decide)]
    decide
  rw [h2, defaultEngine_eq]
  refine ⟨rfl, by decide, by decide⟩

/-- C8, amended: `add_rule` is atomic exactly when every pattern of the
(new) rule list compiles — then the engine adopts the complete re-sorted
and re-compiled state without raising.  When compilation fails,
`re.error` is raised **after** `self.rules` was reassigned: the state
is partially updated — the sorted rules list includes the new rule
while the compiled patterns (and hence all `analyze` behaviour) remain
those of the previous state. -/
theorem C8_amended (st : EngineState) (r : Rule) :
    ((compileAll (sortRules (st.rules ++ [r]))).isSome = true →
      add_rule st r = (⟨sortRules (st.rules ++ [r]),
        (compileAll (sortRules (st.rules ++ [r]))).getD []⟩, false)) ∧
    ((compileAll (sortRules (st.rules ++ [r]))).isSome = false →
      add_rule st r = (⟨sortRules (st.rules ++ [r]), st.compiled⟩, true) ∧
      ∀ text, RuleEngine_analyze (add_rule st r).1 text = RuleEngine_analyze st text) :=
  add_rule_cases st r

/-- Witness for C8's amended theorem: a compiling rule is fully
adopted; a non-compiling rule leaves `analyze` unchanged. -/
theorem C8_amended_witness :
    add_rule defaultEngine goodExtraRule
      = (⟨sortRules (defaultEngine.rules ++ [goodExtraRule]),
          (compileAll (sortRules (defaultEngine.rules ++ [goodExtraRule]))).getD []⟩, false) ∧
    RuleEngine_analyze (add_rule defaultEngine badPatternRule).1 "ajuda"
      = RuleEngine_analyze defaultEngine "ajuda" := by
  constructor
  · refine (C8_amended defaultEngine goodExtraRule).1 ?_
    refine compileAll_isSome_iff.mpr ?_
    intro x hx
    have hx' : x ∈ defaultEngine.rules ++ [goodExtraRule] := List.mem_mergeSort.mp hx
    have hall : ∀ y ∈ defaultEngine.rules ++ [goodExtraRule], (compileRule y).isSome = true := by
      rw [defaultEngine_eq]
      decide
    exact hall x hx'
  · refine ((C8_amended defaultEngine badPatternRule).2 ?_).2 "ajuda"
    cases hs : (compileAll (sortRules (defaultEngine.rules ++ [badPatternRule]))).isSome
    · rfl
    · have h2 := compileAll_isSome_iff.mp hs badPatternRule
        (List.mem_mergeSort.mpr (List.mem_append_right _ (List.mem_singleton.mpr rfl)))
      cases h2

/-- C9: for every registered rule list (whose patterns compile, so the
engine exists), the engine holds the rules sorted by descending
priority with ties broken by original registration order (the filter at
any fixed priority is preserved), the compiled list carries exactly
those rules in that order, and for every text `analyze` returns exactly
the rules whose total non-overlapping match count summed across all
their patterns meets `min_hits`, as (rule, hit count) pairs in the
priority-descending order, the first entry being of maximal priority
among the firing rules. -/
theorem C9_engine_contract (rules : List Rule) (st : EngineState)
    (h : mkRuleEngine rules = some st) :
    st.rules.Pairwise (fun a b => b.priority ≤ a.priority) ∧
    (∀ p : Int, st.rules.filter (fun r => r.priority == p)
      = rules.filter (fun r => r.priority == p)) ∧
    st.compiled.map Prod.fst = st.rules ∧
    ∀ text : String,
      (RuleEngine_analyze st text
        = (st.rules.filter (fun r => decide (r.min_hits ≤ (totalHits r text : Int)))).map
            (fun r => (r, totalHits r text))) ∧
      ((RuleEngine_analyze st text).map Prod.fst).Pairwise
        (fun a b => b.priority ≤ a.priority) ∧
      (∀ best rest, RuleEngine_analyze st text = best :: rest →
        ∀ x ∈ rest, x.1.priority ≤ best.1.priority) := by
  obtain ⟨h1, h2⟩ := mkRuleEngine_spec h
  have hsorted : st.rules.Pairwise (fun a b => b.priority ≤ a.priority) := by
    rw [h1]
    exact sortRules_sorted rules
  refine ⟨hsorted, ?_, ?_, ?_⟩
  · intro p
    rw [h1]
    exact sortRules_stable rules p
  · rw [h2, h1, List.map_map]
    have hid : (Prod.fst ∘ fun r : Rule => (r, r.patterns.filterMap compilePat)) = id := rfl
    rw [hid, List.map_id]
  · intro text
    have hae := analyze_eq h text
    have hmapfst : (RuleEngine_analyze st text).map Prod.fst
        = st.rules.filter (fun r => decide (r.min_hits ≤ (totalHits r text : Int))) := by
      rw [hae, List.map_map]
      have hid : (Prod.fst ∘ fun r : Rule => (r, totalHits r text)) = id := rfl
      rw [hid, List.map_id]
    have hpw : ((RuleEngine_analyze st text).map Prod.fst).Pairwise
        (fun a b => b.priority ≤ a.priority) := by
      rw [hmapfst]
      exact hsorted.sublist (List.filter_sublist _)
    refine ⟨hae, hpw, ?_⟩
    intro best rest hbr x hx
    have hx' : x.1 ∈ rest.map Prod.fst := List.mem_map_of_mem _ hx
    rw [hbr] at hpw
    exact List.rel_of_pairwise_cons hpw hx'

def c9rules : List Rule :=
  [{ name := "c", patterns := [.ok (reWW "alpha"), .ok (reWW "beta")], priority := 80,
     intent := "meeting" },
   { name := "a", patterns := [.ok (reWW "alpha")], priority := 50, intent := "support" },
   { name := "b", patterns := [.ok (reWW "beta")], priority := 50, intent := "billing" }]

/-- Witness for C9 on a concrete engine with an equal-priority tie. -/
theorem C9_engine_contract_witness :
    RuleEngine_analyze ⟨c9rules, (compileAll c9rules).getD []⟩ "alpha beta"
      = ((⟨c9rules, (compileAll c9rules).getD []⟩ : EngineState).rules.filter
          (fun r => decide (r.min_hits ≤ (totalHits r "alpha beta" : Int)))).map
            (fun r => (r, totalHits r "alpha beta")) ∧
    (∀ p : Int, (⟨c9rules, (compileAll c9rules).getD []⟩ : EngineState).rules.filter
        (fun r => r.priority == p) = c9rules.filter (fun r => r.priority == p)) := by
  have h0 : mkRuleEngine c9rules = some ⟨c9rules, (compileAll c9rules).getD []⟩ := by
    unfold mkRuleEngine sortRules
    rw [List.mergeSort_of_sorted (by decide)]
    decide
  exact ⟨((C9_engine_contract c9rules _ h0).2.2.2 "alpha beta").1,
    (C9_engine_contract c9rules _ h0).2.1⟩

/-- C10: `render_template` on the reachable template state
`add_template(TEMPLATES, "newintent", "formal", "x")` queried with the
absent tone "concise" returns Python `None` (modelled `none`) instead
of a template string: `templates_for_intent.get(tone) or
templates_for_intent.get("friendly")` is `None` because the intent's
map has neither the tone nor a "friendly" entry, and `None` is then
returned through the `except` — contradicting both the claim ("never
fails and always returns a template string") and the function's own
`-> str` annotation. -/
theorem C10_render_none :
    render_template (add_template TEMPLATES_def "newintent" "formal" "x")
      "newintent" "concise" [] = none := by
  decide

end MailSense
